import Mathlib

/-!
Verification of the powercap node controller: a shallow embedding of its
power calculator, adjustment clamp, CSV data store, RAPL constraint scan,
and node-initialization logic, together with theorems settling the
documented behavioral properties.

Embedding conventions:
* Go `float64` values are embedded as exact rationals (`ℚ`) where the code is
  finite arithmetic, and as reals (`ℝ`) for the trigonometric time-curve;
  `math.Round` is `goRound` (round half away from zero).
* `time.Time` enters the embedded code only through `Hour()`/`Minute()`,
  so wall-clock time is passed as the pair `(hour, minute)`.
* Effectful operations are embedded as explicit state-passing functions;
  fallible ones return `Option`.
-/

namespace Powercap

/-- Go `math.Round`: rounds to the nearest integer, halves away from zero. -/
def goRound {α : Type} [LinearOrderedField α] [FloorRing α] (x : α) : ℤ :=
  if 0 ≤ x then ⌊x + 1/2⌋ else -⌊-x + 1/2⌋

theorem goRound_nonneg_eq {α : Type} [LinearOrderedField α] [FloorRing α]
    (x : α) (hx : 0 ≤ x) : goRound x = ⌊x + 1/2⌋ := by
  simp [goRound, hx]

theorem goRound_mono_of_nonneg {α : Type} [LinearOrderedField α] [FloorRing α]
    {x y : α} (hx : 0 ≤ x) (hxy : x ≤ y) : goRound x ≤ goRound y := by
  rw [goRound_nonneg_eq x hx, goRound_nonneg_eq y (hx.trans hxy)]
  exact Int.floor_le_floor (by linarith)

theorem goRound_intCast {α : Type} [LinearOrderedField α] [FloorRing α]
    (n : ℤ) (hn : 0 ≤ n) : goRound (n : α) = n := by
  rw [goRound_nonneg_eq _ (by exact_mod_cast hn), Int.floor_eq_iff]
  constructor
  · linarith [(by norm_num : (0:α) < 1/2)]
  · linarith [(by norm_num : (1:α)/2 < 1)]

/-! ## Market data model

`MarketDataPoint` from `internal/datastore` (part_007): a period label,
a volume in MWh and a price in €/MWh. -/

structure MarketDataPoint where
  Period : String
  Volume : ℚ
  Price  : ℚ
deriving DecidableEq, Repr

/-- Two-digit zero-padded rendering, Go's `%02d` for the values occurring in
period labels (all < 100). -/
def fmt2 (n : ℕ) : String :=
  if n < 10 then "0" ++ toString n else toString n

/-- `MarketBasedCalculator.GetCurrentPeriod` (part_007): derives the
15-minute period label from the wall clock.  The final `23:45-24:00`
branch is kept exactly as in the source, after the `periodEnd == 60`
early return. -/
def GetCurrentPeriod (hour minute : ℕ) : String :=
  let periodStart := (minute / 15) * 15
  let periodEnd := periodStart + 15
  if periodEnd = 60 then
    fmt2 hour ++ ":" ++ fmt2 periodStart ++ "-" ++ fmt2 ((hour + 1) % 24) ++ ":00"
  else
    let periodStr := fmt2 hour ++ ":" ++ fmt2 periodStart ++ "-" ++
      fmt2 hour ++ ":" ++ fmt2 periodEnd
    if hour = 23 ∧ periodStart = 45 then "23:45-24:00" else periodStr

/-- The `for`-loop in `CalculatePower` that finds the first data point whose
period matches, defaulting the volume to `0` when none does. -/
def currentVolumeOf (period : String) (data : List MarketDataPoint) : ℚ :=
  match data.find? (fun p => p.Period = period) with
  | some p => p.Volume
  | none => 0

/-- The `for`-loop in `CalculatePower` computing the running maximum volume,
starting from `0`. -/
def listMaxVolume (data : List MarketDataPoint) : ℚ :=
  data.foldl (fun m p => if p.Volume > m then p.Volume else m) 0

/-- `MarketBasedCalculator.CalculatePower` (part_007): rule of three on the
current period's volume against the day's maximum volume. -/
def CalculatePower (maxSource : ℚ) (hour minute : ℕ)
    (data : List MarketDataPoint) : ℤ :=
  let currentPeriod := GetCurrentPeriod hour minute
  let currentVolume := currentVolumeOf currentPeriod data
  if currentVolume = 0 then 0
  else
    let maxVolume := listMaxVolume data
    if maxVolume = 0 then 0
    else goRound (currentVolume / maxVolume * maxSource)

/-! ## Integer parsing

Model of Go `strconv.ParseInt(s, 10, 64)`: optional sign, a non-empty run
of decimal digits, and an int64 range check (out-of-range input is an
error, hence `none`). -/

def digitVal (c : Char) : ℕ := c.toNat - 48

/-- Reads a non-empty all-digit character list as a natural number. -/
def readDigits (cs : List Char) : Option ℕ :=
  if cs = [] then none
  else if cs.all Char.isDigit then
    some (cs.foldl (fun a c => 10 * a + digitVal c) 0)
  else none

/-- Signed digits with the int64 range check of `strconv.ParseInt`. -/
def readSigned (neg : Bool) (ds : List Char) : Option ℤ :=
  match readDigits ds with
  | none => none
  | some n =>
    let v : ℤ := if neg then -(n : ℤ) else (n : ℤ)
    if v < -(2 ^ 63) ∨ 2 ^ 63 - 1 < v then none else some v

def parseInt64 (s : String) : Option ℤ :=
  match s.data with
  | [] => none
  | c :: rest =>
    if c = '-' then readSigned true rest
    else if c = '+' then readSigned false rest
    else readSigned false (c :: rest)

/-! ## RAPL domain abstraction (part_005 / part_006) -/

structure PowerConstraint where
  ID : ℕ
  Path : String
  Value : String
deriving DecidableEq, Repr

structure Domain where
  ID : String
  Constraints : List PowerConstraint
  ConstraintsMax : List PowerConstraint
deriving DecidableEq, Repr

/-- One step of `FindMaxPowerValue`'s scan: keep the running maximum,
skipping values that do not parse. -/
def maxStep (m : ℤ) (c : PowerConstraint) : ℤ :=
  match parseInt64 c.Value with
  | some v => if v > m then v else m
  | none => m

/-- `Manager.FindMaxPowerValue` (part_005/part_006): scans `Constraints`
then `ConstraintsMax` of every domain for the largest parseable value,
failing when the running maximum is still `0` at the end. -/
def FindMaxPowerValue (domains : List Domain) : Option ℤ :=
  let maxPower := domains.foldl
    (fun m d => d.ConstraintsMax.foldl maxStep (d.Constraints.foldl maxStep m)) 0
  if maxPower = 0 then none else some maxPower

/-- The constraint records visited by `FindMaxPowerValue`, in scan order. -/
def allConstraints (domains : List Domain) : List PowerConstraint :=
  (domains.map (fun d => d.Constraints ++ d.ConstraintsMax)).flatten

/-- The constraint values that parse as integers, in scan order. -/
def parsedValues (domains : List Domain) : List ℤ :=
  (allConstraints domains).filterMap (fun c => parseInt64 c.Value)

/-! ## Node state and annotation map

The remote node state is its string-to-string annotation map, embedded as
an association list; `setAnn` is Go map assignment (replace or add). -/

def lookupAnn : List (String × String) → String → Option String
  | [], _ => none
  | (k', v) :: rest, k => if k' = k then some v else lookupAnn rest k

def setAnn : List (String × String) → String → String → List (String × String)
  | [], k, v => [(k, v)]
  | (k', v') :: rest, k, v =>
    if k' = k then (k, v) :: rest else (k', v') :: setAnn rest k v

structure Node where
  anns : List (String × String)
deriving DecidableEq, Repr

/-- The `InitializationAnnotation` lifecycle key (config.go). -/
def initMarkerKey : String := "power-manager/initialized"

/-- `Manager.isNodeInitialized` (config.go): the marker key is present. -/
def isNodeInitialized (node : Node) : Bool :=
  (lookupAnn node.anns initMarkerKey).isSome

/-- `Manager.InitializeNode` (config.go lines 704-756).  `maxPower?` is the
outcome of `FindMaxPowerValue`; the second component of the result counts
remote writes (`updateNode` calls).  Returns `none` on failure. -/
def InitializeNode (provider : String) (maxPower? : Option ℤ) (node : Node) :
    Option (Node × ℕ) :=
  if isNodeInitialized node then some (node, 0)
  else
    match maxPower? with
    | none => none
    | some maxPower =>
      let s := toString maxPower
      let a1 := setAnn node.anns "rapl/max_power_uw" s
      let a2 := setAnn a1 "rapl/pmax" s
      let a3 := setAnn a2 "rapl/provider" provider
      let a4 := setAnn a3 initMarkerKey "kcas-power-manager"
      some (⟨a4⟩, 1)

/-! ## The adjustment cycle's limit selection (`AdjustPowerCap`) -/

/-- `Manager.getMaxPowerValue` (config.go): the remote ceiling, parsed from
the `rapl/max_power_uw` annotation. -/
def getMaxPowerValue (node : Node) : Option ℤ :=
  match lookupAnn node.anns "rapl/max_power_uw" with
  | none => none
  | some v => parseInt64 v

/-- The floor substitution in `AdjustPowerCap`: a calculator result of `0`
is replaced by the configured `RaplLimit`. -/
def adjustedSourcePower (sourcePower raplLimit : ℤ) : ℤ :=
  if sourcePower = 0 then raplLimit else sourcePower

/-- The `pmax` selection in `AdjustPowerCap` (config.go lines 798-813 and
386-393), the value passed to `applyPowerLimits`. -/
def selectPmax (sourcePower maxPower raplLimit : ℤ) : ℤ :=
  if sourcePower > maxPower then maxPower
  else if sourcePower > raplLimit then sourcePower
  else raplLimit

/-! ## Fixed-point decimal formatting and parsing

`strconv.FormatFloat(v, 'f', prec, 64)` and the decimal-notation fragment
of `strconv.ParseFloat` — the only fragment `loadFromCSV` meets on files
written by `saveToCSV`.  Values are exact rationals; float64 range and
binary-representation effects are outside this embedding. -/

def digitChar (d : ℕ) : Char := Char.ofNat (48 + d)

/-- Decimal rendering of a positive natural number, big-endian, driven by
a structural fuel so it evaluates in the kernel. -/
def renderNatAux : ℕ → ℕ → List Char
  | 0, _ => []
  | fuel + 1, n => if n = 0 then [] else renderNatAux fuel (n / 10) ++ [digitChar (n % 10)]

/-- Decimal rendering of a natural number (big-endian digit characters). -/
def renderNat (n : ℕ) : List Char :=
  if n = 0 then ['0'] else renderNatAux n n

/-- The fractional part: exactly `prec` digit characters of `f < 10^prec`,
big-endian, leading zeros kept. -/
def renderFrac : ℕ → ℕ → List Char
  | 0, _ => []
  | prec + 1, f => renderFrac prec (f / 10) ++ [digitChar (f % 10)]

/-- `strconv.FormatFloat(v, 'f', prec, 64)` for `prec ≥ 1`: sign of the
value, integer part, `'.'`, `prec` fractional digits, after rounding to
the nearest multiple of `10^-prec`. -/
def fmtFixed (prec : ℕ) (v : ℚ) : String :=
  let scaled := goRound (v * 10 ^ prec)
  let m := scaled.natAbs
  ⟨(if v < 0 then ['-'] else []) ++
    renderNat (m / 10 ^ prec) ++ '.' :: renderFrac prec (m % 10 ^ prec)⟩

/-- Big-endian digit characters to a natural number. -/
def ofDigitsBE (cs : List Char) : ℕ :=
  cs.foldl (fun a c => 10 * a + digitVal c) 0

/-- Unsigned decimal notation `digits [ '.' digits ]`, at least one digit. -/
def parseDecimalCore (cs : List Char) : Option ℚ :=
  let ip := cs.takeWhile (fun c => c ≠ '.')
  let rest := cs.dropWhile (fun c => c ≠ '.')
  let fp := match rest with
    | [] => ([] : List Char)
    | _ :: t => t
  if ip.all Char.isDigit ∧ fp.all Char.isDigit ∧ (ip ≠ [] ∨ fp ≠ []) then
    some ((ofDigitsBE ip : ℚ) + (ofDigitsBE fp : ℚ) / 10 ^ fp.length)
  else none

/-- `strconv.ParseFloat` on plain decimal notation (optional sign). -/
def parseGoFloat (s : String) : Option ℚ :=
  match s.data with
  | [] => none
  | c :: rest =>
    if c = '-' then (parseDecimalCore rest).map (fun q => -q)
    else if c = '+' then parseDecimalCore rest
    else parseDecimalCore (c :: rest)

/-- Rounding to `prec` decimal places, the equivalence the round-trip
property is stated up to. -/
def roundTo (prec : ℕ) (v : ℚ) : ℚ :=
  (goRound (v * 10 ^ prec) : ℚ) / 10 ^ prec

/-! ## CSV store (internal/datastore/csv_store.go, second variant)

The `encoding/csv` writer/reader pair round-trips records, so a persisted
file is embedded as its record list; the file system is a map from the
day index (`GetDataPath` is injective in the date) to an optional file. -/

def csvHeader : List String := ["Period", "Volume (MWh)", "Price (€/MWh)"]

/-- `CSVDataStore.saveToCSV` (lines 397-427): header row, then one
three-column row per point, volume with 1 decimal, price with 2. -/
def saveToCSV (data : List MarketDataPoint) : List (List String) :=
  csvHeader :: data.map (fun p => [p.Period, fmtFixed 1 p.Volume, fmtFixed 2 p.Price])

/-- One row of `loadFromCSV`: exactly three fields whose volume and price
parse; anything else is skipped by the caller. -/
def parseRecord (r : List String) : Option MarketDataPoint :=
  match r with
  | [per, vol, pr] =>
    match parseGoFloat vol, parseGoFloat pr with
    | some v, some p => some ⟨per, v, p⟩
    | _, _ => none
  | _ => none

/-- `CSVDataStore.loadFromCSV` (lines 349-395): fails with fewer than two
records, otherwise parses every row after the header, skipping malformed
ones. -/
def loadFromCSV (records : List (List String)) : Option (List MarketDataPoint) :=
  if records.length < 2 then none
  else some ((records.drop 1).filterMap parseRecord)

/-- `CSVDataStore`'s mutable state: persisted files, the in-memory dataset
and the cached maximum volume. -/
structure CSVDataStore where
  files : ℤ → Option (List (List String))
  currentData : List MarketDataPoint
  maxVolume : ℚ

/-- `CSVDataStore.updateMaxVolume` (lines 332-347): running maximum of the
volumes, starting from `0`. -/
def updateMaxVolume (data : List MarketDataPoint) : ℚ :=
  data.foldl (fun m p => if p.Volume > m then p.Volume else m) 0

/-- `CSVDataStore.SaveData` (lines 248-264): write (overwrite) the file for
the day, then update the cached dataset and maximum volume.  Write errors
of the medium are not modelled. -/
def SaveData (st : CSVDataStore) (day : ℤ) (data : List MarketDataPoint) :
    CSVDataStore :=
  { files := fun d => if d = day then some (saveToCSV data) else st.files d,
    currentData := data,
    maxVolume := updateMaxVolume data }

/-- `CSVDataStore.RefreshData` (lines 277-330): `fetch` is the provider's
`FetchData` outcome for this call (`none` = fetch error); fails on error
or empty result, otherwise saves (which also updates the cache). -/
def RefreshData (st : CSVDataStore) (day : ℤ)
    (fetch : Option (List MarketDataPoint)) : Option CSVDataStore :=
  match fetch with
  | none => none
  | some data => if data = [] then none else some (SaveData st day data)

/-- The tail of `LoadData`: open and parse the file at the chosen path (a
missing file is an open error), updating the cache on success and leaving
the state untouched on failure. -/
def loadFromPath (st : CSVDataStore) (path : ℤ) :
    Option (List MarketDataPoint) × CSVDataStore :=
  match st.files path with
  | none => (none, st)
  | some recs =>
    match loadFromCSV recs with
    | none => (none, st)
    | some data =>
      (some data, { st with currentData := data, maxVolume := updateMaxVolume data })

/-- `CSVDataStore.LoadData` (lines 218-246): if the day's file is missing,
try `RefreshData`; on refresh failure fall back to the previous day's
path; then open and parse via `loadFromPath`.  Returns the loaded data
(`none` = error) and the resulting store state. -/
def LoadData (st : CSVDataStore) (day : ℤ)
    (fetch : Option (List MarketDataPoint)) :
    Option (List MarketDataPoint) × CSVDataStore :=
  match st.files day with
  | some _ => loadFromPath st day
  | none =>
    match RefreshData st day fetch with
    | some st' => loadFromPath st' day
    | none => loadFromPath st (day - 1)

/-! ## Time-curve calculator (part_001) -/

/-- `hourFraction = hour + minute/60`, the `t` of `calculateSourcePower`. -/
noncomputable def hourFraction (hour minute : ℕ) : ℝ :=
  (hour : ℝ) + (minute : ℝ) / 60

/-- `PowerManager.calculateSourcePower` (part_001 lines 304-314 and
668-679): `maxSource · sin(π/16·(t − maxHour))^alpha`, negative results
clamped to `0`, rounded to int64.  The first variant fixes `maxHour = 4`;
`math.Pow` at the integral exponent the claim requires is `· ^ alpha`. -/
noncomputable def calculateSourcePower
    (maxSource : ℝ) (alpha : ℕ) (maxHour t : ℝ) : ℤ :=
  let power := maxSource * (Real.sin ((Real.pi / 16) * (t - maxHour))) ^ alpha
  if power < 0 then 0 else goRound power

/-! ## Static provider (pkg/providers/static.go) -/

/-- The period label `NewStaticProviderWithDefaults` stores for a given
hour and quarter (lines 29-49), including its `23:45-24:00` final label. -/
def staticPeriodLabel (hour quarter : ℕ) : String :=
  let minute := quarter * 15
  let nm := minute + 15
  let nextHour := if nm ≥ 60 then (hour + 1) % 24 else hour
  let nextMinute := if nm ≥ 60 then 0 else nm
  let period :=
    if nextHour ≠ hour then
      fmt2 hour ++ ":" ++ fmt2 minute ++ "-" ++ fmt2 nextHour ++ ":" ++ fmt2 nextMinute
    else
      fmt2 hour ++ ":" ++ fmt2 minute ++ "-" ++ fmt2 hour ++ ":" ++ fmt2 nextMinute
  if hour = 23 ∧ quarter = 3 then "23:45-24:00" else period

def staticVolume (hour : ℕ) : ℚ :=
  if hour > 12 then 30 + (24 - hour) * 2 else 30 + hour * 2

/-- The full-day default dataset of `NewStaticProviderWithDefaults`. -/
def staticDefaultData : List MarketDataPoint :=
  ((List.range 24).map (fun hour => (List.range 4).map (fun quarter =>
    ({ Period := staticPeriodLabel hour quarter,
       Volume := staticVolume hour,
       Price := 120 - staticVolume hour } : MarketDataPoint)))).flatten

/-! ## Claim C1: the applied limit stays within [floor, ceiling] -/

/-- C1.  In every adjustment cycle whose configured floor (`RaplLimit`) is
at most the remote ceiling (the parsed `rapl/max_power_uw` value), the
`pmax` that `AdjustPowerCap` selects and hands to `applyPowerLimits`
satisfies `floor ≤ pmax ≤ ceiling`, for every calculator result
`sourceRaw` — including `0`, which is first replaced by the floor. -/
theorem adjustPowerCap_applied_in_bounds (node : Node)
    (sourceRaw maxPower raplLimit : ℤ)
    (_hceil : getMaxPowerValue node = some maxPower)
    (hfloor : raplLimit ≤ maxPower) :
    raplLimit ≤ selectPmax (adjustedSourcePower sourceRaw raplLimit) maxPower raplLimit ∧
    selectPmax (adjustedSourcePower sourceRaw raplLimit) maxPower raplLimit ≤ maxPower := by
  unfold selectPmax adjustedSourcePower
  split_ifs <;> omega

/-- Witness for C1: a node whose ceiling annotation reads `35000000`, a
floor of `10000000` and a calculator result of `0`. -/
theorem adjustPowerCap_applied_in_bounds_witness :
    getMaxPowerValue ⟨[("rapl/max_power_uw", "35000000")]⟩ = some 35000000 ∧
    (10000000 : ℤ) ≤ 35000000 ∧
    (10000000 ≤ selectPmax (adjustedSourcePower 0 10000000) 35000000 10000000 ∧
     selectPmax (adjustedSourcePower 0 10000000) 35000000 10000000 ≤ 35000000) :=
  ⟨by decide, by decide,
   adjustPowerCap_applied_in_bounds ⟨[("rapl/max_power_uw", "35000000")]⟩ 0
     35000000 10000000 (by decide) (by decide)⟩

/-! ## Claim C6: node initialization is idempotent -/

theorem lookupAnn_setAnn_self (l : List (String × String)) (k v : String) :
    lookupAnn (setAnn l k v) k = some v := by
  induction l with
  | nil => simp [setAnn, lookupAnn]
  | cons hd tl ih =>
    obtain ⟨k', v'⟩ := hd
    by_cases hk : k' = k
    · simp [setAnn, hk, lookupAnn]
    · simp [setAnn, hk, lookupAnn, ih]

/-- C6.  `InitializeNode` is idempotent: on a node already carrying the
initialization marker it succeeds with zero remote writes and an unchanged
node; consequently any successful invocation leaves a node on which a
second invocation is such a no-op. -/
theorem InitializeNode_idempotent (provider provider₂ : String)
    (mp mp₂ : Option ℤ) (node : Node) :
    (isNodeInitialized node = true → InitializeNode provider mp node = some (node, 0)) ∧
    (∀ node' w, InitializeNode provider mp node = some (node', w) →
      InitializeNode provider₂ mp₂ node' = some (node', 0)) := by
  constructor
  · intro h
    simp [InitializeNode, h]
  · intro node' w h
    by_cases hinit : isNodeInitialized node
    · simp only [InitializeNode, if_pos hinit, Option.some.injEq, Prod.mk.injEq] at h
      obtain ⟨rfl, -⟩ := h
      simp [InitializeNode, hinit]
    · cases mp with
      | none => simp [InitializeNode, if_neg hinit] at h
      | some maxPower =>
        simp only [InitializeNode, if_neg hinit, Option.some.injEq, Prod.mk.injEq] at h
        obtain ⟨hnode, -⟩ := h
        have hmarked : isNodeInitialized node' = true := by
          rw [← hnode]
          simp [isNodeInitialized, lookupAnn_setAnn_self]
        simp [InitializeNode, hmarked]

/-- Witness for C6: a node that already carries the marker. -/
theorem InitializeNode_idempotent_witness :
    isNodeInitialized ⟨[(initMarkerKey, "kcas-power-manager")]⟩ = true ∧
    InitializeNode "epex" (some 250000000) ⟨[(initMarkerKey, "kcas-power-manager")]⟩ =
      some (⟨[(initMarkerKey, "kcas-power-manager")]⟩, 0) :=
  ⟨by decide,
   (InitializeNode_idempotent "epex" "epex" (some 250000000) (some 250000000)
     ⟨[(initMarkerKey, "kcas-power-manager")]⟩).1 (by decide)⟩

/-! ## Claim C3: the day's final period label -/

/-- C3 (divergence witness).  For any time in `[23:45, 24:00)` the code
returns `23:45-00:00` — the `periodEnd == 60` branch fires before the
function's own `23:45-24:00` special case, which is unreachable — while
the default static provider stores the final quarter as `23:45-24:00`, so
the volume lookup for that period finds nothing. -/
theorem getCurrentPeriod_final_quarter_divergence :
    GetCurrentPeriod 23 45 = "23:45-00:00" ∧
    ("23:45-24:00" ∈ staticDefaultData.map (fun p => p.Period)) ∧
    staticDefaultData.find? (fun p => p.Period = GetCurrentPeriod 23 45) = none :=
  ⟨rfl, by decide, by decide⟩

/-! ## Claim C8: the maximum-power scan -/

theorem foldl_maxStep_eq (l : List PowerConstraint) (m : ℤ) :
    l.foldl maxStep m = (l.filterMap (fun c => parseInt64 c.Value)).foldl max m := by
  induction l generalizing m with
  | nil => rfl
  | cons hd tl ih =>
    simp only [List.foldl_cons, List.filterMap_cons]
    cases hpc : parseInt64 hd.Value with
    | none => simp [maxStep, hpc, ih]
    | some v =>
      simp only [List.foldl_cons, ih]
      congr 1
      simp only [maxStep, hpc]
      split_ifs <;> omega

theorem findMax_foldl_flatten (domains : List Domain) (m : ℤ) :
    domains.foldl
      (fun m d => d.ConstraintsMax.foldl maxStep (d.Constraints.foldl maxStep m)) m =
    (allConstraints domains).foldl maxStep m := by
  induction domains generalizing m with
  | nil => rfl
  | cons hd tl ih =>
    simp [allConstraints, List.foldl_append, ih]

theorem foldl_max_le_self (l : List ℤ) (a : ℤ) :
    a ≤ l.foldl max a ∧ ∀ v ∈ l, v ≤ l.foldl max a := by
  induction l generalizing a with
  | nil => simp
  | cons hd tl ih =>
    obtain ⟨h₁, h₂⟩ := ih (max a hd)
    refine ⟨le_trans (le_max_left a hd) h₁, ?_⟩
    intro v hv
    rcases List.mem_cons.mp hv with rfl | hv
    · exact le_trans (le_max_right a v) h₁
    · exact h₂ v hv

theorem foldl_max_mem (l : List ℤ) (a : ℤ) :
    l.foldl max a = a ∨ l.foldl max a ∈ l := by
  induction l generalizing a with
  | nil => simp
  | cons hd tl ih =>
    rcases ih (max a hd) with h | h
    · rcases max_choice a hd with hm | hm
      · left
        rw [List.foldl_cons, h, hm]
      · right
        refine List.mem_cons.mpr (Or.inl ?_)
        rw [List.foldl_cons, h, hm]
    · right
      exact List.mem_cons_of_mem _ h

/-- C8.  `FindMaxPowerValue` returns the largest parseable constraint
value (scanning both the current-limit and the max sets), and fails with
its not-found error exactly when no constraint value parses as a positive
integer; unparseable values are skipped rather than causing failure. -/
theorem FindMaxPowerValue_spec (domains : List Domain) :
    (∀ m, FindMaxPowerValue domains = some m →
      m ∈ parsedValues domains ∧ (∀ v ∈ parsedValues domains, v ≤ m) ∧ 0 < m) ∧
    (FindMaxPowerValue domains = none ↔ ∀ v ∈ parsedValues domains, v ≤ 0) := by
  have hrw : FindMaxPowerValue domains =
      (if (parsedValues domains).foldl max 0 = 0 then none
       else some ((parsedValues domains).foldl max 0)) := by
    rw [FindMaxPowerValue, findMax_foldl_flatten, foldl_maxStep_eq]
    rfl
  obtain ⟨hle, hall⟩ := foldl_max_le_self (parsedValues domains) 0
  constructor
  · intro m hm
    rw [hrw] at hm
    by_cases h0 : (parsedValues domains).foldl max 0 = 0
    · rw [if_pos h0] at hm
      exact absurd hm (by simp)
    · rw [if_neg h0] at hm
      have hme := Option.some.inj hm
      subst hme
      rcases foldl_max_mem (parsedValues domains) 0 with h | h
      · exact absurd h h0
      · exact ⟨h, hall, lt_of_le_of_ne hle (Ne.symm h0)⟩
  · rw [hrw]
    by_cases h0 : (parsedValues domains).foldl max 0 = 0
    · rw [if_pos h0]
      exact ⟨fun _ v hv => le_trans (hall v hv) (le_of_eq h0), fun _ => rfl⟩
    · rw [if_neg h0]
      constructor
      · intro hc
        exact absurd hc (by simp)
      · intro hv
        exfalso
        apply h0
        rcases foldl_max_mem (parsedValues domains) 0 with h | h
        · exact h
        · exact le_antisymm (hv _ h) hle

/-- Witness for C8: one unreadable ("abc") and one readable constraint. -/
theorem FindMaxPowerValue_spec_witness :
    FindMaxPowerValue
      [⟨"intel-rapl:0", [⟨0, "p0", "abc"⟩], [⟨1, "p1", "250000000"⟩]⟩] =
        some 250000000 ∧
    (250000000 : ℤ) ∈
      parsedValues [⟨"intel-rapl:0", [⟨0, "p0", "abc"⟩], [⟨1, "p1", "250000000"⟩]⟩] ∧
    (0 : ℤ) < 250000000 :=
  ⟨by decide,
   ((FindMaxPowerValue_spec
       [⟨"intel-rapl:0", [⟨0, "p0", "abc"⟩], [⟨1, "p1", "250000000"⟩]⟩]).1
     250000000 (by decide)).1,
   by decide⟩

/-! ## Claim C4: maximum-volume period and absent period -/

/-- C4.  On a dataset with positive maximum volume: when the current
period is found with a volume equal to that maximum, `CalculatePower`
returns the reference max up to rounding; when the current period is
absent, it returns exactly `0`. -/
theorem calculatePower_max_volume_spec (maxSource : ℚ) (hour minute : ℕ)
    (data : List MarketDataPoint) :
    (∀ pt, data.find? (fun p => p.Period = GetCurrentPeriod hour minute) = some pt →
      pt.Volume = listMaxVolume data → 0 < listMaxVolume data →
      CalculatePower maxSource hour minute data = goRound maxSource) ∧
    (data.find? (fun p => p.Period = GetCurrentPeriod hour minute) = none →
      CalculatePower maxSource hour minute data = 0) := by
  constructor
  · intro pt hfind hvol hpos
    simp only [CalculatePower, currentVolumeOf, hfind, hvol]
    rw [if_neg (ne_of_gt hpos), if_neg (ne_of_gt hpos),
      div_self (ne_of_gt hpos), one_mul]
  · intro hfind
    simp [CalculatePower, currentVolumeOf, hfind]

/-- Witness for C4: Scenario A — the `12:00-12:15` volume `93.8` is the
dataset's maximum, the calculator returns `40000000`, and with ceiling
`35000000` and floor `10000000` the applied value is `35000000`. -/
theorem calculatePower_max_volume_spec_witness :
    [(⟨"00:00-00:15", 663/10, 3191/100⟩ : MarketDataPoint),
      ⟨"12:00-12:15", 938/10, 4215/100⟩].find?
        (fun p => p.Period = GetCurrentPeriod 12 0) =
      some ⟨"12:00-12:15", 938/10, 4215/100⟩ ∧
    CalculatePower 40000000 12 0
      [⟨"00:00-00:15", 663/10, 3191/100⟩, ⟨"12:00-12:15", 938/10, 4215/100⟩] =
      40000000 ∧
    selectPmax (adjustedSourcePower 40000000 10000000) 35000000 10000000 = 35000000 := by
  have hfind : [(⟨"00:00-00:15", 663/10, 3191/100⟩ : MarketDataPoint),
      ⟨"12:00-12:15", 938/10, 4215/100⟩].find?
        (fun p => p.Period = GetCurrentPeriod 12 0) =
      some ⟨"12:00-12:15", 938/10, 4215/100⟩ := by
    simp [show GetCurrentPeriod 12 0 = "12:00-12:15" from rfl]
  have happ := (calculatePower_max_volume_spec 40000000 12 0
      [⟨"00:00-00:15", 663/10, 3191/100⟩, ⟨"12:00-12:15", 938/10, 4215/100⟩]).1
    ⟨"12:00-12:15", 938/10, 4215/100⟩ hfind
    (by norm_num [listMaxVolume]) (by norm_num [listMaxVolume])
  refine ⟨hfind, ?_, by decide⟩
  rw [happ]
  norm_num [goRound, Int.floor_eq_iff]

/-! ## Claim C9: all zero-returning cases fall back to the floor -/

/-- C9.  `CalculatePower` returns `0` when the current period is absent,
when it is present with a listed volume of `0`, and when the dataset's
maximum volume is `0`; in every such case `AdjustPowerCap` substitutes
the configured floor for the calculator result. -/
theorem calculatePower_zero_cases_floor (maxSource : ℚ) (hour minute : ℕ)
    (data : List MarketDataPoint) (raplLimit : ℤ) :
    (data.find? (fun p => p.Period = GetCurrentPeriod hour minute) = none →
      CalculatePower maxSource hour minute data = 0) ∧
    (∀ pt, data.find? (fun p => p.Period = GetCurrentPeriod hour minute) = some pt →
      pt.Volume = 0 → CalculatePower maxSource hour minute data = 0) ∧
    (listMaxVolume data = 0 → CalculatePower maxSource hour minute data = 0) ∧
    (CalculatePower maxSource hour minute data = 0 →
      adjustedSourcePower (CalculatePower maxSource hour minute data) raplLimit
        = raplLimit) := by
  refine ⟨?_, ?_, ?_, ?_⟩
  · intro hfind
    simp [CalculatePower, currentVolumeOf, hfind]
  · intro pt hfind hvol
    simp [CalculatePower, currentVolumeOf, hfind, hvol]
  · intro hmax
    simp only [CalculatePower, hmax]
    split_ifs <;> simp
  · intro hzero
    rw [hzero]
    simp [adjustedSourcePower]

/-- Witness for C9: a dataset whose listed volumes are all `0`. -/
theorem calculatePower_zero_cases_floor_witness :
    CalculatePower 40000000 14 0
      [(⟨"12:00-12:15", 0, 1⟩ : MarketDataPoint), ⟨"13:00-13:15", 0, 2⟩] = 0 ∧
    CalculatePower 40000000 12 0
      [(⟨"12:00-12:15", 0, 1⟩ : MarketDataPoint), ⟨"13:00-13:15", 0, 2⟩] = 0 ∧
    listMaxVolume [(⟨"12:00-12:15", 0, 1⟩ : MarketDataPoint), ⟨"13:00-13:15", 0, 2⟩] = 0 ∧
    adjustedSourcePower
      (CalculatePower 40000000 12 0
        [(⟨"12:00-12:15", 0, 1⟩ : MarketDataPoint), ⟨"13:00-13:15", 0, 2⟩])
      10000000 = 10000000 := by
  have habsent := (calculatePower_zero_cases_floor 40000000 14 0
      [⟨"12:00-12:15", 0, 1⟩, ⟨"13:00-13:15", 0, 2⟩] 10000000).1
    (by simp [show GetCurrentPeriod 14 0 = "14:00-14:15" from rfl])
  have hzero := (calculatePower_zero_cases_floor 40000000 12 0
      [⟨"12:00-12:15", 0, 1⟩, ⟨"13:00-13:15", 0, 2⟩] 10000000).2.1
    ⟨"12:00-12:15", 0, 1⟩
    (by simp [show GetCurrentPeriod 12 0 = "12:00-12:15" from rfl]) rfl
  have hfloor := (calculatePower_zero_cases_floor 40000000 12 0
      [⟨"12:00-12:15", 0, 1⟩, ⟨"13:00-13:15", 0, 2⟩] 10000000).2.2.2 hzero
  exact ⟨habsent, hzero, by norm_num [listMaxVolume], hfloor⟩

/-! ## Claim C7: fallback to the previous day's file -/

/-- C7.  When day `D` has no persisted file and `RefreshData` fails,
`LoadData D` reads the previous day's file instead; if that is also
absent the call fails and leaves the store — in particular the cached
dataset — unchanged. -/
theorem LoadData_fallback_previous_day (st : CSVDataStore) (day : ℤ)
    (fetch : Option (List MarketDataPoint))
    (hmiss : st.files day = none)
    (hfail : RefreshData st day fetch = none) :
    (st.files (day - 1) = none → LoadData st day fetch = (none, st)) ∧
    (∀ recs d, st.files (day - 1) = some recs → loadFromCSV recs = some d →
      LoadData st day fetch =
        (some d, { st with currentData := d, maxVolume := updateMaxVolume d })) := by
  constructor
  · intro hprev
    simp [LoadData, loadFromPath, hmiss, hfail, hprev]
  · intro recs d hprev hparse
    simp [LoadData, loadFromPath, hmiss, hfail, hprev, hparse]

/-- Witness for C7: an empty file system and a failing fetch. -/
theorem LoadData_fallback_previous_day_witness :
    RefreshData ⟨fun _ => none, [], 0⟩ 0 none = none ∧
    LoadData ⟨fun _ => none, [], 0⟩ 0 none = (none, ⟨fun _ => none, [], 0⟩) :=
  ⟨rfl,
   (LoadData_fallback_previous_day ⟨fun _ => none, [], 0⟩ 0 none rfl rfl).1 rfl⟩

/-! ## Claim C10: the cached maximum volume (corrected) -/

/-- The reference value named by the claim: the maximum of the `Volume`
fields of the dataset, `0` when it is empty.  Stated from the claim's
words, for comparison with `updateMaxVolume` from the source. -/
def maxVolumeClaim (data : List MarketDataPoint) : ℚ :=
  match data.map (fun p => p.Volume) with
  | [] => 0
  | v :: vs => vs.foldl max v

/-- C10 counterexample.  A successful `SaveData` of a dataset whose only
volume is `-1` caches `maxVolume = 0`, not the maximum of the `Volume`
fields (`-1`): the scan starts its running maximum at `0`. -/
theorem updateMaxVolume_negative_volume_cex :
    (SaveData ⟨fun _ => none, [], 0⟩ 0 [⟨"00:00-00:15", -1, 0⟩]).maxVolume = 0 ∧
    (SaveData ⟨fun _ => none, [], 0⟩ 0 [⟨"00:00-00:15", -1, 0⟩]).currentData =
      [⟨"00:00-00:15", -1, 0⟩] ∧
    maxVolumeClaim
      (SaveData ⟨fun _ => none, [], 0⟩ 0 [⟨"00:00-00:15", -1, 0⟩]).currentData = -1 ∧
    (SaveData ⟨fun _ => none, [], 0⟩ 0 [⟨"00:00-00:15", -1, 0⟩]).maxVolume ≠
      maxVolumeClaim
        (SaveData ⟨fun _ => none, [], 0⟩ 0 [⟨"00:00-00:15", -1, 0⟩]).currentData := by
  refine ⟨?_, rfl, rfl, ?_⟩
  · norm_num [SaveData, updateMaxVolume]
  · norm_num [SaveData, updateMaxVolume, maxVolumeClaim]

theorem updateMaxVolume_eq_max_zero (data : List MarketDataPoint) :
    updateMaxVolume data = max 0 (maxVolumeClaim data) := by
  have hstep : ∀ (m : ℚ) (p : MarketDataPoint),
      (if p.Volume > m then p.Volume else m) = max m p.Volume := by
    intro m p
    rcases le_or_lt p.Volume m with h | h
    · rw [if_neg (not_lt.mpr h), max_eq_left h]
    · rw [if_pos h, max_eq_right (le_of_lt h)]
  have hfold : ∀ (l : List MarketDataPoint) (a : ℚ),
      l.foldl (fun m p => if p.Volume > m then p.Volume else m) a =
        l.foldl (fun m p => max m p.Volume) a := by
    intro l
    induction l with
    | nil => intro a; rfl
    | cons hd tl ih => intro a; simp only [List.foldl_cons, hstep, ih]
  have hmax : ∀ (l : List MarketDataPoint) (a b : ℚ),
      l.foldl (fun m p => max m p.Volume) (max a b) =
        max a (l.foldl (fun m p => max m p.Volume) b) := by
    intro l
    induction l with
    | nil => intro a b; rfl
    | cons hd tl ih =>
      intro a b
      simp only [List.foldl_cons, max_assoc, ih]
  have hmap : ∀ (l : List MarketDataPoint) (a : ℚ),
      l.foldl (fun m p => max m p.Volume) a =
        (l.map (fun p => p.Volume)).foldl max a := by
    intro l
    induction l with
    | nil => intro a; rfl
    | cons h t ih => intro a; simp [List.foldl_cons, ih]
  cases data with
  | nil => simp [updateMaxVolume, maxVolumeClaim]
  | cons hd tl =>
    simp only [updateMaxVolume, maxVolumeClaim, List.map_cons, List.foldl_cons,
      hfold, hstep]
    rw [hmax, hmap]

/-- C10 (amended).  After every successful `LoadData`, `SaveData` or
`RefreshData`, the cached `maxVolume` equals the maximum of `0` and the
`Volume` fields of the cached dataset — i.e. the claim's value whenever
some volume is non-negative, and `0` for the empty dataset — the running
maximum starting at `0` rather than at the first field. -/
theorem maxVolume_cache_invariant_amended (st st' : CSVDataStore) (day : ℤ)
    (data d : List MarketDataPoint) (fetch : Option (List MarketDataPoint)) :
    ((SaveData st day data).maxVolume =
      max 0 (maxVolumeClaim (SaveData st day data).currentData)) ∧
    (RefreshData st day fetch = some st' →
      st'.maxVolume = max 0 (maxVolumeClaim st'.currentData)) ∧
    (LoadData st day fetch = (some d, st') →
      st'.maxVolume = max 0 (maxVolumeClaim st'.currentData)) := by
  refine ⟨?_, ?_, ?_⟩
  · simp [SaveData, updateMaxVolume_eq_max_zero]
  · intro h
    cases fetch with
    | none => simp [RefreshData] at h
    | some fdata =>
      by_cases hf : fdata = []
      · simp [RefreshData, hf] at h
      · simp only [RefreshData, if_neg hf, Option.some.injEq] at h
        rw [← h]
        simp [SaveData, updateMaxVolume_eq_max_zero]
  · intro h
    have key : ∀ (s : CSVDataStore) (p : ℤ), loadFromPath s p = (some d, st') →
        st'.maxVolume = max 0 (maxVolumeClaim st'.currentData) := by
      intro s p hl
      unfold loadFromPath at hl
      cases hfile : s.files p with
      | none =>
        simp only [hfile] at hl
        exact absurd (congrArg Prod.fst hl) (by simp)
      | some recs =>
        simp only [hfile] at hl
        cases hparse : loadFromCSV recs with
        | none =>
          simp only [hparse] at hl
          exact absurd (congrArg Prod.fst hl) (by simp)
        | some pdata =>
          simp only [hparse] at hl
          injection hl with h1 h2
          rw [← h2]
          simp [updateMaxVolume_eq_max_zero]
    unfold LoadData at h
    cases hfd : st.files day with
    | some recs0 =>
      rw [hfd] at h
      exact key _ _ h
    | none =>
      rw [hfd] at h
      cases hrf : RefreshData st day fetch with
      | some st'' =>
        rw [hrf] at h
        exact key _ _ h
      | none =>
        rw [hrf] at h
        exact key _ _ h

/-- Witness for C10 (amended): refresh of a one-point dataset. -/
theorem maxVolume_cache_invariant_amended_witness :
    RefreshData ⟨fun _ => none, [], 0⟩ 0 (some [⟨"00:00-00:15", 663/10, 3191/100⟩]) =
      some (SaveData ⟨fun _ => none, [], 0⟩ 0 [⟨"00:00-00:15", 663/10, 3191/100⟩]) ∧
    (SaveData ⟨fun _ => none, [], 0⟩ 0 [⟨"00:00-00:15", 663/10, 3191/100⟩]).maxVolume =
      max 0 (maxVolumeClaim
        (SaveData ⟨fun _ => none, [], 0⟩ 0
          [⟨"00:00-00:15", 663/10, 3191/100⟩]).currentData) :=
  ⟨by simp [RefreshData],
   (maxVolume_cache_invariant_amended ⟨fun _ => none, [], 0⟩
      (SaveData ⟨fun _ => none, [], 0⟩ 0 [⟨"00:00-00:15", 663/10, 3191/100⟩]) 0
      [⟨"00:00-00:15", 663/10, 3191/100⟩] []
      (some [⟨"00:00-00:15", 663/10, 3191/100⟩])).2.1
    (by simp [RefreshData])⟩

/-! ## Claim C5: save/load round-trip -/

theorem digitVal_digitChar (d : ℕ) (hd : d < 10) : digitVal (digitChar d) = d := by
  interval_cases d <;> decide

theorem isDigit_digitChar (d : ℕ) (hd : d < 10) : (digitChar d).isDigit = true := by
  interval_cases d <;> decide

theorem ofDigitsBE_snoc (l : List Char) (c : Char) :
    ofDigitsBE (l ++ [c]) = 10 * ofDigitsBE l + digitVal c := by
  simp [ofDigitsBE, List.foldl_append]

theorem renderFrac_length (prec f : ℕ) : (renderFrac prec f).length = prec := by
  induction prec generalizing f with
  | zero => rfl
  | succ p ih => simp [renderFrac, ih]

theorem renderFrac_digits (prec f : ℕ) :
    ∀ c ∈ renderFrac prec f, c.isDigit = true := by
  induction prec generalizing f with
  | zero => simp [renderFrac]
  | succ p ih =>
    intro c hc
    rcases List.mem_append.mp hc with h | h
    · exact ih (f / 10) c h
    · rw [List.mem_singleton.mp h]
      exact isDigit_digitChar _ (Nat.mod_lt f (by norm_num))

theorem mod_ten_pow_succ (p f : ℕ) :
    10 * (f / 10 % 10 ^ p) + f % 10 = f % 10 ^ (p + 1) := by
  have hm : 0 < 10 ^ p := pow_pos (by norm_num) p
  have hq : f / 10 % 10 ^ p < 10 ^ p := Nat.mod_lt _ hm
  have hr : f % 10 < 10 := Nat.mod_lt f (by norm_num)
  have key : f = (10 * (f / 10 % 10 ^ p) + f % 10) + 10 ^ (p + 1) * (f / 10 / 10 ^ p) :=
    calc f = 10 * (f / 10) + f % 10 := (Nat.div_add_mod f 10).symm
      _ = 10 * (10 ^ p * (f / 10 / 10 ^ p) + f / 10 % 10 ^ p) + f % 10 := by
          conv_rhs => rw [Nat.div_add_mod]
      _ = (10 * (f / 10 % 10 ^ p) + f % 10) + 10 ^ (p + 1) * (f / 10 / 10 ^ p) := by
          rw [pow_succ]; ring
  have hlt : 10 * (f / 10 % 10 ^ p) + f % 10 < 10 ^ (p + 1) := by
    rw [pow_succ]
    omega
  conv_rhs => rw [key]
  rw [Nat.add_mul_mod_self_left, Nat.mod_eq_of_lt hlt]

theorem ofDigitsBE_renderFrac (prec f : ℕ) :
    ofDigitsBE (renderFrac prec f) = f % 10 ^ prec := by
  induction prec generalizing f with
  | zero => simp [renderFrac, ofDigitsBE, Nat.mod_one]
  | succ p ih =>
    rw [renderFrac, ofDigitsBE_snoc, ih,
      digitVal_digitChar _ (Nat.mod_lt f (by norm_num)), mod_ten_pow_succ]

theorem ofDigitsBE_renderNatAux (fuel n : ℕ) (h : n ≤ fuel) :
    ofDigitsBE (renderNatAux fuel n) = n := by
  induction fuel generalizing n with
  | zero =>
    interval_cases n
    rfl
  | succ fuel ih =>
    by_cases h0 : n = 0
    · simp [renderNatAux, h0, ofDigitsBE]
    · rw [renderNatAux, if_neg h0, ofDigitsBE_snoc,
        ih (n / 10) ?_, digitVal_digitChar _ (Nat.mod_lt n (by norm_num))]
      · exact Nat.div_add_mod n 10
      · have : n / 10 < n := Nat.div_lt_self (Nat.pos_of_ne_zero h0) (by norm_num)
        omega

theorem renderNatAux_digits (fuel n : ℕ) :
    ∀ c ∈ renderNatAux fuel n, c.isDigit = true := by
  induction fuel generalizing n with
  | zero => simp [renderNatAux]
  | succ fuel ih =>
    intro c hc
    rw [renderNatAux] at hc
    by_cases h0 : n = 0
    · rw [if_pos h0] at hc
      simp at hc
    · rw [if_neg h0] at hc
      rcases List.mem_append.mp hc with h | h
      · exact ih (n / 10) c h
      · rw [List.mem_singleton.mp h]
        exact isDigit_digitChar _ (Nat.mod_lt n (by norm_num))

theorem ofDigitsBE_renderNat (n : ℕ) : ofDigitsBE (renderNat n) = n := by
  by_cases h0 : n = 0
  · simp [renderNat, h0, ofDigitsBE, digitVal]
  · rw [renderNat, if_neg h0]
    exact ofDigitsBE_renderNatAux n n le_rfl

theorem renderNat_digits (n : ℕ) : ∀ c ∈ renderNat n, c.isDigit = true := by
  by_cases h0 : n = 0
  · rw [renderNat, if_pos h0]
    intro c hc
    rw [List.mem_singleton.mp hc]
    decide
  · rw [renderNat, if_neg h0]
    exact renderNatAux_digits n n

theorem renderNat_ne_nil (n : ℕ) : renderNat n ≠ [] := by
  by_cases h0 : n = 0
  · simp [renderNat, h0]
  · rw [renderNat, if_neg h0]
    have h1 : 1 ≤ n := Nat.one_le_iff_ne_zero.mpr h0
    obtain ⟨fuel, rfl⟩ : ∃ fuel, n = fuel + 1 := ⟨n - 1, by omega⟩
    rw [renderNatAux, if_neg h0]
    simp

theorem isDigit_ne_dot {c : Char} (hc : c.isDigit = true) : c ≠ '.' := by
  intro he
  rw [he] at hc
  exact absurd hc (by decide)

theorem isDigit_ne_minus {c : Char} (hc : c.isDigit = true) : c ≠ '-' := by
  intro he
  rw [he] at hc
  exact absurd hc (by decide)

theorem isDigit_ne_plus {c : Char} (hc : c.isDigit = true) : c ≠ '+' := by
  intro he
  rw [he] at hc
  exact absurd hc (by decide)

theorem takeWhile_digits_dot (l rest : List Char)
    (h : ∀ c ∈ l, c.isDigit = true) :
    (l ++ '.' :: rest).takeWhile (fun c => c ≠ '.') = l ∧
    (l ++ '.' :: rest).dropWhile (fun c => c ≠ '.') = '.' :: rest := by
  induction l with
  | nil => simp
  | cons hd tl ih =>
    have hhd : hd ≠ '.' := isDigit_ne_dot (h hd (List.mem_cons_self hd tl))
    have htl := ih (fun c hc => h c (List.mem_cons_of_mem hd hc))
    constructor
    · rw [List.cons_append, List.takeWhile_cons_of_pos (by simp [hhd]), htl.1]
    · rw [List.cons_append, List.dropWhile_cons_of_pos (by simp [hhd]), htl.2]

theorem parseDecimalCore_render (prec m : ℕ) :
    parseDecimalCore
      (renderNat (m / 10 ^ prec) ++ '.' :: renderFrac prec (m % 10 ^ prec)) =
      some ((m : ℚ) / 10 ^ prec) := by
  have hsplit := takeWhile_digits_dot (renderNat (m / 10 ^ prec))
    (renderFrac prec (m % 10 ^ prec)) (renderNat_digits _)
  have hpos : 0 < 10 ^ prec := pow_pos (by norm_num) prec
  simp only [parseDecimalCore, hsplit.1, hsplit.2]
  rw [if_pos ⟨List.all_eq_true.mpr (renderNat_digits _),
      List.all_eq_true.mpr (renderFrac_digits _ _),
      Or.inl (renderNat_ne_nil _)⟩]
  rw [ofDigitsBE_renderNat, ofDigitsBE_renderFrac, renderFrac_length,
    Nat.mod_eq_of_lt (Nat.mod_lt m hpos)]
  congr 1
  have hcast : ((m : ℚ)) =
      (10 : ℚ) ^ prec * ((m / 10 ^ prec : ℕ) : ℚ) + ((m % 10 ^ prec : ℕ) : ℚ) := by
    exact_mod_cast (Nat.div_add_mod m (10 ^ prec)).symm
  rw [hcast]
  field_simp
  ring

/-- The central formatting/parsing lemma: `ParseFloat` of
`FormatFloat(v, 'f', prec)` recovers `v` rounded to `prec` decimals. -/
theorem parse_fmtFixed (prec : ℕ) (v : ℚ) :
    parseGoFloat (fmtFixed prec v) = some (roundTo prec v) := by
  have hpos : (0 : ℚ) < 10 ^ prec := by positivity
  by_cases hv : v < 0
  · have hs : goRound (v * 10 ^ prec) ≤ 0 := by
      have hx : v * 10 ^ prec < 0 := mul_neg_of_neg_of_pos hv hpos
      rw [goRound, if_neg (by linarith)]
      have : (0 : ℤ) ≤ ⌊-(v * 10 ^ prec) + 1 / 2⌋ := by
        rw [Int.le_floor]
        push_cast
        linarith
      omega
    rw [fmtFixed, parseGoFloat, if_pos hv]
    show (parseDecimalCore _).map _ = _
    simp only [List.append_eq, List.nil_append]
    rw [parseDecimalCore_render prec (goRound (v * 10 ^ prec)).natAbs,
      Option.map_some']
    have hcast : (((goRound (v * 10 ^ prec)).natAbs : ℚ)) =
        -((goRound (v * 10 ^ prec) : ℤ) : ℚ) := by
      rw [Int.cast_natAbs, Int.cast_abs,
        abs_of_nonpos (show ((goRound (v * 10 ^ prec) : ℤ) : ℚ) ≤ 0 by exact_mod_cast hs)]
    rw [roundTo, hcast]
    ring_nf
  · have hs : 0 ≤ goRound (v * 10 ^ prec) := by
      have hx : 0 ≤ v * 10 ^ prec := mul_nonneg (not_lt.mp hv) (le_of_lt hpos)
      rw [goRound, if_pos (by linarith)]
      rw [Int.le_floor]
      push_cast
      linarith
    obtain ⟨c, cs, hc⟩ : ∃ c cs,
        renderNat ((goRound (v * 10 ^ prec)).natAbs / 10 ^ prec) = c :: cs := by
      cases hrn : renderNat ((goRound (v * 10 ^ prec)).natAbs / 10 ^ prec) with
      | nil => exact absurd hrn (renderNat_ne_nil _)
      | cons c cs => exact ⟨c, cs, rfl⟩
    have hcdig : c.isDigit = true :=
      renderNat_digits _ c (by rw [hc]; exact List.mem_cons_self c cs)
    rw [fmtFixed, parseGoFloat, if_neg hv, List.nil_append, hc, List.cons_append]
    show (if c = '-' then _ else if c = '+' then _ else
      parseDecimalCore (c :: (cs ++ _))) = _
    rw [if_neg (isDigit_ne_minus hcdig), if_neg (isDigit_ne_plus hcdig),
      ← List.cons_append, ← hc,
      parseDecimalCore_render prec (goRound (v * 10 ^ prec)).natAbs]
    have hcast : (((goRound (v * 10 ^ prec)).natAbs : ℚ)) =
        ((goRound (v * 10 ^ prec) : ℤ) : ℚ) := by
      rw [Int.cast_natAbs, Int.cast_abs,
        abs_of_nonneg (show (0 : ℚ) ≤ ((goRound (v * 10 ^ prec) : ℤ) : ℚ) by
          exact_mod_cast hs)]
    rw [roundTo, hcast]

theorem parseRecord_row (p : MarketDataPoint) :
    parseRecord [p.Period, fmtFixed 1 p.Volume, fmtFixed 2 p.Price] =
      some ⟨p.Period, roundTo 1 p.Volume, roundTo 2 p.Price⟩ := by
  simp [parseRecord, parse_fmtFixed]

theorem loadFromCSV_saveToCSV (D : List MarketDataPoint) (hne : D ≠ []) :
    loadFromCSV (saveToCSV D) =
      some (D.map (fun p => ⟨p.Period, roundTo 1 p.Volume, roundTo 2 p.Price⟩)) := by
  have hlen : ¬ (saveToCSV D).length < 2 := by
    have : D.length ≠ 0 := fun h => hne (List.length_eq_zero.mp h)
    simp only [saveToCSV, List.length_cons, List.length_map]
    omega
  rw [loadFromCSV, if_neg hlen]
  have hrows : ∀ (l : List MarketDataPoint),
      (l.map (fun p => [p.Period, fmtFixed 1 p.Volume, fmtFixed 2 p.Price])).filterMap
          parseRecord =
        l.map (fun p => ⟨p.Period, roundTo 1 p.Volume, roundTo 2 p.Price⟩) := by
    intro l
    induction l with
    | nil => rfl
    | cons hd tl ih => simp [List.filterMap_cons, parseRecord_row, ih]
  simp only [saveToCSV, List.drop_succ_cons, List.drop_zero, hrows]

/-- C5.  `SaveData(day, D)` followed by `LoadData(day)` reproduces `D`:
same length and order, identical period labels, volumes rounded to 1
decimal place, prices rounded to 2. -/
theorem SaveData_LoadData_roundTrip (st : CSVDataStore) (day : ℤ)
    (fetch : Option (List MarketDataPoint)) (D : List MarketDataPoint)
    (hne : D ≠ []) (_hvol : ∀ p ∈ D, 0 ≤ p.Volume) :
    (LoadData (SaveData st day D) day fetch).1 =
      some (D.map (fun p => ⟨p.Period, roundTo 1 p.Volume, roundTo 2 p.Price⟩)) := by
  have hfile : (SaveData st day D).files day = some (saveToCSV D) := by
    simp [SaveData]
  simp [LoadData, loadFromPath, hfile, loadFromCSV_saveToCSV D hne]

/-- Witness for C5: a one-point dataset whose volume and price are already
at 1- and 2-decimal precision, so the round-trip reproduces them exactly. -/
theorem SaveData_LoadData_roundTrip_witness :
    (LoadData (SaveData ⟨fun _ => none, [], 0⟩ 0
        [⟨"00:00-00:15", 663/10, 3191/100⟩]) 0 none).1 =
      some [⟨"00:00-00:15", roundTo 1 (663/10), roundTo 2 (3191/100)⟩] ∧
    roundTo 1 ((663 : ℚ)/10) = 663/10 ∧ roundTo 2 ((3191 : ℚ)/100) = 3191/100 := by
  refine ⟨?_, ?_, ?_⟩
  · have h := SaveData_LoadData_roundTrip ⟨fun _ => none, [], 0⟩ 0 none
      [⟨"00:00-00:15", 663/10, 3191/100⟩] (by simp)
      (by
        intro p hp
        rw [List.mem_singleton.mp hp]
        norm_num)
    simpa using h
  · norm_num [roundTo, goRound, Int.floor_eq_iff]
  · norm_num [roundTo, goRound, Int.floor_eq_iff]

/-! ## Claim C2: the time-curve calculator with even alpha -/

/-- C2 counterexample.  At `t = 0` with the default `alpha = 4`,
`maxHour = 4` and `maxSource = 40000000`, the sine is negative — the time
lies outside the positive half-cycle — yet the computed power is
`10000000`, not `0`: the code raises the sine to the power `alpha` before
clamping, so for even `alpha` the clamp never fires. -/
theorem calculateSourcePower_nonzero_outside_half_cycle :
    Real.sin (Real.pi / 16 * ((0 : ℝ) - 4)) < 0 ∧
    calculateSourcePower 40000000 4 4 0 = 10000000 := by
  have hsqrt : (0 : ℝ) < Real.sqrt 2 := Real.sqrt_pos.mpr (by norm_num)
  have harg : Real.pi / 16 * ((0 : ℝ) - 4) = -(Real.pi / 4) := by ring
  have hsin : Real.sin (Real.pi / 16 * ((0 : ℝ) - 4)) = -(Real.sqrt 2 / 2) := by
    rw [harg, Real.sin_neg, Real.sin_pi_div_four]
  have hpow : (40000000 : ℝ) * (-(Real.sqrt 2 / 2)) ^ 4 = 10000000 := by
    have h2 : Real.sqrt 2 ^ 2 = 2 := Real.sq_sqrt (by norm_num)
    calc (40000000 : ℝ) * (-(Real.sqrt 2 / 2)) ^ 4
        = 40000000 * ((Real.sqrt 2 ^ 2) ^ 2 / 16) := by ring
      _ = 10000000 := by rw [h2]; norm_num
  constructor
  · rw [hsin]
    linarith
  · unfold calculateSourcePower
    rw [hsin, hpow, if_neg (by norm_num)]
    rw [show (10000000 : ℝ) = ((10000000 : ℤ) : ℝ) by norm_num]
    exact goRound_intCast _ (by norm_num)

/-- C2 (amended).  For even `alpha` and non-negative `maxSource` the
computed power is `maxSource · sin(π/16·(t − maxHour))^alpha` everywhere —
non-negative, so the negative clamp never fires, and strictly positive
outside the positive half-cycle wherever the sine is nonzero — and on the
rising half `[maxHour, maxHour + 8]` of the cycle the power rises
monotonically toward its peak. -/
theorem calculateSourcePower_even_alpha_spec (maxSource : ℝ) (alpha : ℕ)
    (maxHour : ℝ) (hms : 0 ≤ maxSource) (heven : Even alpha) :
    (∀ t, calculateSourcePower maxSource alpha maxHour t =
      goRound (maxSource * Real.sin (Real.pi / 16 * (t - maxHour)) ^ alpha)) ∧
    (∀ t₁ t₂, maxHour ≤ t₁ → t₁ ≤ t₂ → t₂ ≤ maxHour + 8 →
      calculateSourcePower maxSource alpha maxHour t₁ ≤
        calculateSourcePower maxSource alpha maxHour t₂) := by
  have hnn : ∀ t, 0 ≤ maxSource * Real.sin (Real.pi / 16 * (t - maxHour)) ^ alpha :=
    fun t => mul_nonneg hms (heven.pow_nonneg _)
  have heq : ∀ t, calculateSourcePower maxSource alpha maxHour t =
      goRound (maxSource * Real.sin (Real.pi / 16 * (t - maxHour)) ^ alpha) := by
    intro t
    unfold calculateSourcePower
    rw [if_neg (not_lt.mpr (hnn t))]
  refine ⟨heq, ?_⟩
  intro t₁ t₂ h₁ h₁₂ h₂
  have hpi := Real.pi_pos
  have hc : (0 : ℝ) < Real.pi / 16 := by positivity
  have ha₁0 : 0 ≤ Real.pi / 16 * (t₁ - maxHour) :=
    mul_nonneg (le_of_lt hc) (by linarith)
  have ha12 : Real.pi / 16 * (t₁ - maxHour) ≤ Real.pi / 16 * (t₂ - maxHour) :=
    mul_le_mul_of_nonneg_left (by linarith) (le_of_lt hc)
  have ha₂ : Real.pi / 16 * (t₂ - maxHour) ≤ Real.pi / 2 := by
    calc Real.pi / 16 * (t₂ - maxHour) ≤ Real.pi / 16 * 8 :=
          mul_le_mul_of_nonneg_left (by linarith) (le_of_lt hc)
      _ = Real.pi / 2 := by ring
  have hsin_mono : Real.sin (Real.pi / 16 * (t₁ - maxHour)) ≤
      Real.sin (Real.pi / 16 * (t₂ - maxHour)) := by
    apply Real.strictMonoOn_sin.monotoneOn ?_ ?_ ha12
    · exact Set.mem_Icc.mpr ⟨by linarith, by linarith⟩
    · exact Set.mem_Icc.mpr ⟨by linarith, ha₂⟩
  have hs₁ : 0 ≤ Real.sin (Real.pi / 16 * (t₁ - maxHour)) :=
    Real.sin_nonneg_of_nonneg_of_le_pi ha₁0 (by linarith)
  have hpow : Real.sin (Real.pi / 16 * (t₁ - maxHour)) ^ alpha ≤
      Real.sin (Real.pi / 16 * (t₂ - maxHour)) ^ alpha :=
    pow_le_pow_left₀ hs₁ hsin_mono alpha
  rw [heq t₁, heq t₂]
  exact goRound_mono_of_nonneg (hnn t₁) (mul_le_mul_of_nonneg_left hpow hms)

/-- Witness for C2 (amended): `alpha = 4`, `maxHour = 4`, two times on the
rising half of the cycle. -/
theorem calculateSourcePower_even_alpha_spec_witness :
    (0 : ℝ) ≤ 1 ∧ Even 4 ∧
    calculateSourcePower 1 4 4 4 =
      goRound ((1 : ℝ) * Real.sin (Real.pi / 16 * ((4 : ℝ) - 4)) ^ 4) ∧
    calculateSourcePower 1 4 4 5 ≤ calculateSourcePower 1 4 4 6 := by
  have h := calculateSourcePower_even_alpha_spec 1 4 4 zero_le_one ⟨2, rfl⟩
  exact ⟨zero_le_one, ⟨2, rfl⟩, h.1 4,
    h.2 5 6 (by norm_num) (by norm_num) (by norm_num)⟩

end Powercap
